import Mathlib

/-!
# A verification development for the `jsonselect` library

This file gives a shallow embedding of `src/jsonselect/jsonselect.py`
(the lexer `lex`/`SCANNER`, the tree flattener `object_iter`, and the
`Parser` class with its productions and `select` entry point), together
with theorems that settle the specification claims about it.

Conventions of the embedding:
* Python JSON values become the inductive type `Json` (objects keep their
  field list in iteration order; the code runs under Python 2 where dict
  order is arbitrary, and no settled claim depends on the order of object
  keys beyond a single-key object or an order-insensitive outcome).
* Python exceptions become `Except Err`; each raise site of the source is
  mapped to one `Err` constructor.
* The destructively consumed token list (`tokens.pop(0)`) is threaded
  explicitly: parsing functions take the token list (or a `PyState`
  bundling the document with the token list) and return the remainder.
-/

set_option linter.unusedVariables false

/-- A JSON value as handed to `select` (the result of `json.load`).
`num` covers Python ints; `bool` is kept separate, but note that Python's
`bool` is a subclass of `int`, so a boolean satisfies
`isinstance(x, numbers.Number)` (see `Json.isNum`). -/
inductive Json where
  | null : Json
  | bool (b : Bool) : Json
  | num (n : Int) : Json
  | str (s : String) : Json
  | arr (elems : List Json) : Json
  | obj (fields : List (String × Json)) : Json

/-- `Node = collections.namedtuple('Node', ['value', 'parents', 'sibling_idx', 'siblings'])`.
`parents` is the list of object keys along the path from the root to the
node (array traversal does not extend it); `sibling_idx` is 1-indexed and
`none` models Python `None`. -/
structure Node where
  value : Json
  parents : List String
  sibling_idx : Option Nat
  siblings : Option Nat

mutual
/-- Embedding of `object_iter(obj, parents=[], sibling_idx=None, siblings=None)`:
yields each node of the object graph in postorder.  Lists recurse into
their elements with a 1-indexed position and the sibling count; mappings
recurse into each value with the key appended to `parents`; finally the
value itself is yielded. -/
def object_iter (obj : Json) (parents : List String) (sibling_idx : Option Nat)
    (siblings : Option Nat) : List Node :=
  match obj with
  | .arr elems => iter_elems elems 1 elems.length parents ++
      [⟨.arr elems, parents, sibling_idx, siblings⟩]
  | .obj fields => iter_fields fields parents ++
      [⟨.obj fields, parents, sibling_idx, siblings⟩]
  | v => [⟨v, parents, sibling_idx, siblings⟩]

/-- The `for i, elem in enumerate(obj)` loop of `object_iter` over a list:
element `elem` at 0-based position `i` is visited with
`object_iter(elem, parents, i+1, len(obj))`. -/
def iter_elems (elems : List Json) (i : Nat) (len : Nat) (parents : List String) :
    List Node :=
  match elems with
  | [] => []
  | e :: rest => object_iter e parents (some i) (some len) ++ iter_elems rest (i + 1) len parents

/-- The `for key in obj` loop of `object_iter` over a mapping:
each value is visited with `object_iter(obj[key], parents + [key])`. -/
def iter_fields (fields : List (String × Json)) (parents : List String) : List Node :=
  match fields with
  | [] => []
  | (k, v) :: rest => object_iter v (parents ++ [k]) none none ++ iter_fields rest parents
end

mutual
/-- Total number of JSON values in a document: every scalar, every array
element, every object value, plus every composite itself. -/
def totalCount : Json → Nat
  | .arr elems => 1 + countElems elems
  | .obj fields => 1 + countFields fields
  | _ => 1

/-- Sum of `totalCount` over the elements of an array. -/
def countElems : List Json → Nat
  | [] => 0
  | e :: rest => totalCount e + countElems rest

/-- Sum of `totalCount` over the values of an object. -/
def countFields : List (String × Json) → Nat
  | [] => 0
  | (_, v) :: rest => totalCount v + countFields rest
end

/-- `Child c d`: `c` is an immediate child value of the composite `d`
(an element of an array, or the value of one of an object's keys). -/
inductive Child : Json → Json → Prop where
  | arr {elems : List Json} {x : Json} : x ∈ elems → Child x (.arr elems)
  | obj {fields : List (String × Json)} {k : String} {x : Json} :
      (k, x) ∈ fields → Child x (.obj fields)

/-- `Reach d v`: the value `v` is reachable in the document `d`
(`d` itself, or reachable in one of its children). -/
inductive Reach : Json → Json → Prop where
  | refl (d : Json) : Reach d d
  | step {d c v : Json} : Child c d → Reach c v → Reach d v

/-- `v` is a strict descendant value of `d`. -/
def ProperReach (d v : Json) : Prop := ∃ c, Child c d ∧ Reach c v

/-- The body of `object_iter` before the final `yield`: the flattening of
all the children of `obj` (empty for scalars). -/
def iterBody (obj : Json) (parents : List String) : List Node :=
  match obj with
  | .arr elems => iter_elems elems 1 elems.length parents
  | .obj fields => iter_fields fields parents
  | _ => []

/-! ## The lexer (`SCANNER` and `lex`) -/

/-- The value slot of a token pair, mirroring the Python values built by the
`S_*` scanner callbacks: strings, ints, floats (kept as their lexeme:
the evaluator never inspects a float token), and `True` for whitespace. -/
inductive TValue where
  | s (v : String)
  | i (v : Int)
  | f (v : String)
  | b (v : Bool)
  deriving DecidableEq

/-- A scanner token: a `(kind, value)` pair exactly as in the source,
e.g. `('type', 'object')` or `('empty', True)`. -/
abbrev Token := String × TValue

/-- Python truthiness of a token value, as used by `_peek`-based tests:
an empty string, the int `0` and `False` are falsy.  A float lexeme is
never tested for truthiness by the parser (no call peeks a float token),
so its truthiness is returned as `true`. -/
def TValue.truthy : TValue → Bool
  | .s v => v ≠ ""
  | .i v => v ≠ 0
  | .f _ => true
  | .b v => v

/-- Rule `r"[~*,>\)\("]` of the `SCANNER`. -/
def isOperChar (c : Char) : Bool := c ∈ ['~', '*', ',', '>', ')', '(']

/-- Rule `r"\s"`: Python whitespace (space, tab, newline, vertical tab,
form feed, carriage return). -/
def isSpaceChar (c : Char) : Bool :=
  c ∈ [' ', '\t', '\n', Char.ofNat 11, Char.ofNat 12, '\r']

/-- Digits of a decimal literal to the `int` Python builds with `int(token)`. -/
def charsToNat (cs : List Char) : Nat :=
  cs.foldl (fun acc c => 10 * acc + (c.toNat - '0'.toNat)) 0

/-- The optional exponent group `([eE][+\-]?\d+)?` of the float rule:
returns the consumed characters (possibly none) and the rest. -/
def matchExp (cs : List Char) : List Char × List Char :=
  match cs with
  | e :: rest =>
    if e = 'e' ∨ e = 'E' then
      match rest with
      | c :: rest2 =>
        if c = '+' ∨ c = '-' then
          match rest2.span Char.isDigit with
          | ([], _) => ([], cs)
          | (ds, r) => (e :: c :: ds, r)
        else
          match rest.span Char.isDigit with
          | ([], _) => ([], cs)
          | (ds, r) => (e :: ds, r)
      | [] => ([], cs)
    else ([], cs)
  | [] => ([], cs)

/-- Rule `r"(-?\d+(\.\d*)([eE][+\-]?\d+)?)"`: note that the `(\.\d*)` group
is not optional, so a float lexeme must contain a decimal point. -/
def matchFloat (cs : List Char) : Option (List Char × List Char) :=
  let (sign, cs1) := match cs with
    | '-' :: t => (['-'], t)
    | _ => (([] : List Char), cs)
  match cs1.span Char.isDigit with
  | ([], _) => none
  | (ds, cs2) =>
    match cs2 with
    | '.' :: cs3 =>
      let (fs, cs4) := cs3.span Char.isDigit
      let (ex, cs5) := matchExp cs4
      some (sign ++ ds ++ '.' :: fs ++ ex, cs5)
    | _ => none

/-- Matches the first keyword of `kws` that is a prefix of `cs` (regex
alternation is first-match, and none of the scanner's keyword rules is
anchored, so a prefix suffices). -/
def matchKeyword (kws : List String) (cs : List Char) : Option (String × List Char) :=
  match kws with
  | [] => none
  | kw :: rest =>
    if kw.toList.isPrefixOf cs then some (kw, cs.drop kw.length)
    else matchKeyword rest cs

/-- The `([^"\\]|\\[^"])*` body of the quoted-identifier rule: greedily
consumes body units, stopping before a quote, an escaped quote, a
trailing backslash, or the end of input. -/
def quotedUnits : List Char → List Char × List Char
  | [] => ([], [])
  | '"' :: rest => ([], '"' :: rest)
  | '\\' :: c :: rest =>
    if c = '"' then ([], '\\' :: c :: rest)
    else
      let (u, r) := quotedUnits rest
      ('\\' :: c :: u, r)
  | '\\' :: [] => ([], ['\\'])
  | c :: rest =>
    let (u, r) := quotedUnits rest
    (c :: u, r)

/-- Rule `r'\.?\"([^"\\]|\\[^"])*\"'`: optional leading dot, then a quoted
string.  Returns the whole lexeme. -/
def matchQuoted (cs : List Char) : Option (List Char × List Char) :=
  let (dot, cs1) := match cs with
    | '.' :: t => (['.'], t)
    | _ => (([] : List Char), cs)
  match cs1 with
  | '"' :: cs2 =>
    let (body, cs3) := quotedUnits cs2
    match cs3 with
    | '"' :: cs4 => some (dot ++ '"' :: (body ++ ['"']), cs4)
    | _ => none
  | _ => none

/-- `S_QUOTED_IDENTIFIER` = `S_IDENTIFIER(None, token.replace('"', ''))`:
strip every double quote from the lexeme, then drop its first character. -/
def quotedValue (lexeme : List Char) : String :=
  String.mk ((lexeme.filter (· ≠ '"')).drop 1)

/-- First character class `[_a-zA-Z]|[^\0-\0177]` of the identifier rule. -/
def isIdentStart (c : Char) : Bool := c = '_' ∨ c.isAlpha ∨ c.toNat > 0x7f

/-- The escape class `\\[^\s0-9a-fA-F]`: a backslash followed by anything
that is neither whitespace, a digit, nor a hex letter. -/
def isEscOk (c : Char) : Bool :=
  ¬ isSpaceChar c ∧ ¬ c.isDigit ∧
    ¬ (('a' ≤ c ∧ c ≤ 'f') ∨ ('A' ≤ c ∧ c ≤ 'F'))

/-- Continuation class `[_a-zA-Z0-9\-]|[^\u0000-ŷ]` of the identifier
rule (note the continuation cut-off is U+0177, not U+007F). -/
def isIdentCont (c : Char) : Bool :=
  c = '_' ∨ c = '-' ∨ c.isAlpha ∨ c.isDigit ∨ c.toNat > 0x177

/-- The `(...)*` continuation of the identifier rule: plain continuation
characters or escapes, consumed greedily. -/
def identContUnits : List Char → List Char × List Char
  | '\\' :: c :: rest =>
    if isEscOk c then
      let (u, r) := identContUnits rest
      ('\\' :: c :: u, r)
    else ([], '\\' :: c :: rest)
  | c :: rest =>
    if isIdentCont c then
      let (u, r) := identContUnits rest
      (c :: u, r)
    else ([], c :: rest)
  | [] => ([], [])

/-- Rule `u"\.([_a-zA-Z]|[^\0-\0177]|\\[^\s0-9a-fA-F])(?:...)*"`:
a dot, an identifier start (or escape), then continuations. -/
def matchIdentifier (cs : List Char) : Option (List Char × List Char) :=
  match cs with
  | '.' :: '\\' :: c :: cs2 =>
    if isEscOk c then
      let (u, r) := identContUnits cs2
      some ('.' :: '\\' :: c :: u, r)
    else none
  | '.' :: c :: cs2 =>
    if isIdentStart c then
      let (u, r) := identContUnits cs2
      some ('.' :: c :: u, r)
    else none
  | _ => none

/-- The type keywords, in the alternation order of the scanner rule
`r"string|boolean|null|array|object|number"`. -/
def typeKeywords : List String := ["string", "boolean", "null", "array", "object", "number"]

/-- Pseudo-class names of rule `r":(root|first-child|last-child|only-child)"`. -/
def pclassKeywords : List String := ["root", "first-child", "last-child", "only-child"]

/-- Pseudo-function names of rule `r":(nth-child|nth-last-child|has|expr|val|contains)"`. -/
def pclassFuncKeywords : List String :=
  ["nth-child", "nth-last-child", "has", "expr", "val", "contains"]

/-- Rule `r"(&&|\|\||[\$\^<>!\*]=|[=+\-*/%<>])"`. -/
def matchBinop (cs : List Char) : Option (List Char × List Char) :=
  match cs with
  | '&' :: '&' :: r => some (['&', '&'], r)
  | '|' :: '|' :: r => some (['|', '|'], r)
  | c :: rest =>
    if c ∈ ['$', '^', '<', '>', '!', '*'] ∧ rest.head? = some '=' then
      some ([c, '='], rest.tail)
    else if c ∈ ['=', '+', '-', '*', '/', '%', '<', '>'] then some ([c], rest)
    else none
  | [] => none

/-- Value keywords of rule `r"true|false|null"` (`null` is shadowed by the
earlier type-keyword rule and can never be produced). -/
def valKeywords : List String := ["true", "false", "null"]

/-- Rule `r"\w+"`: one or more word characters (ASCII, no `re.UNICODE`). -/
def matchWord (cs : List Char) : Option (List Char × List Char) :=
  match cs.span (fun c => c.isAlphanum ∨ c = '_') with
  | ([], _) => none
  | (w, r) => some (w, r)

/-- One step of `re.Scanner.scan`: the rules are tried in the order they
are listed in `SCANNER`, and the first whose pattern matches at the
current position wins.  Every rule consumes at least one character. -/
def scanStep (cs : List Char) : Option (Token × List Char) :=
  (match cs with
   | c :: rest => if isOperChar c then some ((("operator", .s (String.mk [c])) : Token), rest) else none
   | [] => none) <|>
  (match cs with
   | c :: rest => if isSpaceChar c then some ((("empty", .b true) : Token), rest) else none
   | [] => none) <|>
  ((matchFloat cs).map (fun p => (("float", .f (String.mk p.1)), p.2))) <|>
  (match cs.span Char.isDigit with
   | ([], _) => none
   | (ds, r) => some ((("int", .i (charsToNat ds : Int)) : Token), r)) <|>
  ((matchKeyword typeKeywords cs).map (fun p => (("type", .s p.1), p.2))) <|>
  ((matchQuoted cs).map (fun p => (("identifier", .s (quotedValue p.1)), p.2))) <|>
  ((matchIdentifier cs).map (fun p => (("identifier", .s (String.mk (p.1.drop 1))), p.2))) <|>
  (match cs with
   | ':' :: cs1 => (matchKeyword pclassKeywords cs1).map (fun p => (("pclass", .s p.1), p.2))
   | _ => none) <|>
  (match cs with
   | ':' :: cs1 => (matchKeyword pclassFuncKeywords cs1).map (fun p => (("pclass_func", .s p.1), p.2))
   | _ => none) <|>
  ((matchBinop cs).map (fun p => (("binop", .s (String.mk p.1)), p.2))) <|>
  ((matchKeyword valKeywords cs).map (fun p => (("val", .s p.1), p.2))) <|>
  ((matchWord cs).map (fun p => (("word", .s (String.mk p.1)), p.2)))

/-- The scan loop: apply `scanStep` until no rule matches, collecting the
tokens and the unscanned remainder.  The fuel argument only bounds the
iteration count; since every rule consumes at least one character,
`length + 1` fuel is never exhausted. -/
def scanAux : Nat → List Char → List Token × List Char
  | 0, cs => ([], cs)
  | fuel + 1, cs =>
    match scanStep cs with
    | none => ([], cs)
    | some (t, rest) =>
      let (ts, r) := scanAux fuel rest
      (t :: ts, r)

/-- `SCANNER.scan(selector)`: the token list and the unscanned remainder. -/
def scan (cs : List Char) : List Token × List Char := scanAux (cs.length + 1) cs

/-- Possible failures of the pipeline; each constructor corresponds to one
kind of exception the Python source can raise. -/
inductive Err where
  /-- `lex`: `Exception("leftover input: %s" % rest)`. -/
  | lexError (rest : String)
  /-- `_match`: `Exception('match not successful')`. -/
  | matchError
  /-- `Exception('syntax error')` (argument parsing and
  `pclass_function_validator`). -/
  | syntaxError
  /-- `pclass_production`: `Exception("unrecognized pclass %s" % pclass)`. -/
  | unrecognizedPclass (p : TValue)
  /-- `type_production`: `map[type_]` lookup with an unknown key raises
  `KeyError`. -/
  | keyError
  /-- `list.extend(None)` raises `TypeError` (the stubbed combinator
  helpers return `None`); also `None` arithmetic. -/
  | typeError
  /-- `self.siblings(...)`: the `Parser` class defines no `siblings`
  method, so the `~` combinator raises `AttributeError`. -/
  | attributeError
  /-- Artifact of the fuel-bounded embedding of recursive descent; never
  reached when the initial fuel exceeds the token count. -/
  | outOfFuel
  deriving DecidableEq

/-- Embedding of `lex(selector)`: scan, and only if *no* token was
produced and unconsumed input remains, raise the leftover-input error;
otherwise return the tokens (discarding any remainder). -/
def lex (selector : String) : Except Err (List Token) :=
  let scanned := scan selector.toList
  if scanned.1.length = 0 then
    if scanned.2 ≠ [] then .error (.lexError (String.mk scanned.2))
    else .ok scanned.1
  else .ok scanned.1

/-! ## The parser and evaluator (`Parser`) -/

/-- The state a `Parser` evaluation runs over: the document (`self.obj`,
never written by the source) and the token list that the Python code
consumes destructively via `tokens.pop(0)`. -/
structure PyState where
  doc : Json
  tokens : List Token

/-- The value `select` hands back to the caller: a single JSON value when
exactly one node matched, otherwise a list. -/
inductive PyResult where
  | single (v : Json)
  | multiple (vs : List Json)

/-- `Parser._peek(tokens, type_)`: the first token's value if its kind
matches, else Python `False` (modelled as `none`). -/
def _peek (tokens : List Token) (type_ : String) : Option TValue :=
  match tokens with
  | [] => none
  | (k, v) :: _ => if k = type_ then some v else none

/-- Truthiness of a `_peek` result: `False` (no token / wrong kind) and
falsy token values both fail an `if self._peek(...)` test. -/
def pyTruthy : Option TValue → Bool
  | none => false
  | some v => v.truthy

/-- `Parser._match(tokens, type_)`: re-checks `_peek` (raising
`match not successful` on a falsy answer) and pops the first token,
returning its value and the remaining list. -/
def _match (tokens : List Token) (type_ : String) : Except Err (TValue × List Token) :=
  if pyTruthy (_peek tokens type_) then
    match tokens with
    | t :: rest => .ok (t.2, rest)
    | [] => .error .matchError
  else .error .matchError

/-- A selector-segment predicate: Python validator closures may raise when
called (e.g. the `has` pseudo-function), hence the `Except`. -/
abbrev Validator := Node → Except Err Bool

/-- `isinstance(v, basestring)`. -/
def Json.isStr : Json → Bool
  | .str _ => true
  | _ => false

/-- `isinstance(v, numbers.Number)`: Python `bool` is a subclass of `int`,
so booleans count as numbers. -/
def Json.isNum : Json → Bool
  | .num _ => true
  | .bool _ => true
  | _ => false

/-- `isinstance(v, collections.Mapping)`. -/
def Json.isObj : Json → Bool
  | .obj _ => true
  | _ => false

/-- `isinstance(v, list)`. -/
def Json.isArr : Json → Bool
  | .arr _ => true
  | _ => false

/-- `isinstance(v, bool)`. -/
def Json.isBool : Json → Bool
  | .bool _ => true
  | _ => false

/-- `isinstance(v, type(None))`. -/
def Json.isNull : Json → Bool
  | .null => true
  | _ => false

/-- `Parser.type_production(type_)`: a validator checking the node value
against the kind named by the token value.  The `map[type_]` dictionary
lookup happens inside the returned lambda, so an unknown key raises
`KeyError` at validation time (unreachable through the scanner, whose
type tokens carry exactly the six keys). -/
def type_production (type_ : TValue) : Validator := fun node =>
  if type_ = .s "string" then .ok node.value.isStr
  else if type_ = .s "number" then .ok node.value.isNum
  else if type_ = .s "object" then .ok node.value.isObj
  else if type_ = .s "array" then .ok node.value.isArr
  else if type_ = .s "boolean" then .ok node.value.isBool
  else if type_ = .s "null" then .ok node.value.isNull
  else .error .keyError

/-- `Parser.key_production(key)`: true when the node's `parents` chain is
non-empty and its last entry equals the identifier value. -/
def key_production (key : TValue) : Validator := fun node =>
  match node.parents.getLast? with
  | some k => .ok (TValue.s k = key)
  | none => .ok false

/-- `Parser.pclass_production(pclass)`: builds the pseudo-class validator,
raising `unrecognized pclass` for any other name. -/
def pclass_production (pclass : TValue) : Except Err Validator :=
  if pclass = .s "first-child" then
    .ok (fun node => .ok (node.sibling_idx = some 1))
  else if pclass = .s "last-child" then
    .ok (fun node => .ok (match node.siblings with
      | some s => if s = 0 then false else node.sibling_idx = some s
      | none => false))
  else if pclass = .s "only-child" then
    .ok (fun node => .ok (node.siblings = some 1))
  else if pclass = .s "root" then
    .ok (fun node => .ok (node.parents.length = 0))
  else .error (.unrecognizedPclass pclass)

/-- `Parser.pclass_function_validator(pclass, args, node)`: evaluates an
`nth-child`/`nth-last-child` argument list against the node; every other
pseudo-function name (including `has`, `expr`, `val`, `contains`) falls
through to `raise Exception('syntax error')`.  Arithmetic on a `None`
sibling index would raise `TypeError` (unreachable, as `siblings` and
`sibling_idx` are always set together by `object_iter`). -/
def pclass_function_validator (pclass : TValue) (args : List Token) (node : Node) :
    Except Err Bool :=
  if pclass = .s "nth-child" then
    match node.siblings with
    | none => .ok false
    | some s =>
      if s = 0 then .ok false
      else if _peek args "word" = some (.s "odd") then
        match node.sibling_idx with
        | some i => .ok (i % 2 = 1)
        | none => .error .typeError
      else if _peek args "word" = some (.s "even") then
        match node.sibling_idx with
        | some i => .ok (i % 2 = 0)
        | none => .error .typeError
      else if pyTruthy (_peek args "int") then
        match _match args "int" with
        | .ok (.i idx, _) =>
          match node.sibling_idx with
          | some i => .ok ((i : Int) = idx)
          | none => .error .typeError
        | .ok _ => .error .typeError
        | .error e => .error e
      else .error .syntaxError
  else if pclass = .s "nth-last-child" then
    match node.siblings with
    | none => .ok false
    | some s =>
      if s = 0 then .ok false
      else
        match node.sibling_idx with
        | none => .error .typeError
        | some i =>
          let reverse_idx : Int := (s : Int) - ((i : Int) - 1)
          if _peek args "word" = some (.s "odd") then .ok (reverse_idx % 2 = 1)
          else if _peek args "word" = some (.s "even") then .ok (reverse_idx % 2 = 0)
          else if pyTruthy (_peek args "int") then
            match _match args "int" with
            | .ok (.i idx, _) => .ok (reverse_idx = idx)
            | .ok _ => .error .typeError
            | .error e => .error e
          else .error .syntaxError
  else .error .syntaxError

/-- The `while tokens: ... else: raise` argument loop of
`pclass_func_production`: collect tokens until a `)` operator (which is
popped), failing if the list is exhausted without one. -/
def collectArgs : List Token → List Token → Except Err (List Token × List Token)
  | [], _ => .error .syntaxError
  | t :: rest, args =>
    if _peek (t :: rest) "operator" = some (.s ")") then .ok (args, rest)
    else collectArgs rest (args ++ [t])

/-- `Parser.pclass_func_production(lexeme, tokens)`: require a `(`, collect
the argument tokens up to the matching `)`, and return
`functools.partial(pclass_function_validator, lexeme, args)`. -/
def pclass_func_production (lexeme : TValue) (tokens : List Token) :
    Except Err (Validator × List Token) :=
  if _peek tokens "operator" = some (.s "(") then
    match _match tokens "operator" with
    | .error e => .error e
    | .ok (_, ts) =>
      match collectArgs ts [] with
      | .error e => .error e
      | .ok (args, ts2) => .ok (pclass_function_validator lexeme args, ts2)
  else .error .syntaxError

/-- The validator-building prefix of `Parser.selector_production` (lines
140-158 of the source): the four `if self._peek(...)` blocks appending
the type, key, pseudo-class and pseudo-function validators in order. -/
def parseSegment (tokens : List Token) : Except Err (List Validator × List Token) := do
  let (vs1, ts1) ←
    if pyTruthy (_peek tokens "type") then do
      let (type_, ts) ← _match tokens "type"
      pure ([type_production type_], ts)
    else pure (([] : List Validator), tokens)
  let (vs2, ts2) ←
    if pyTruthy (_peek ts1 "identifier") then do
      let (key, ts) ← _match ts1 "identifier"
      pure (vs1 ++ [key_production key], ts)
    else pure (vs1, ts1)
  let (vs3, ts3) ←
    if pyTruthy (_peek ts2 "pclass") then do
      let (pclass, ts) ← _match ts2 "pclass"
      let validator ← pclass_production pclass
      pure (vs2 ++ [validator], ts)
    else pure (vs2, ts2)
  if pyTruthy (_peek ts3 "pclass_func") then do
    let (pclass_func, ts) ← _match ts3 "pclass_func"
    let (validator, ts4) ← pclass_func_production pclass_func ts
    pure (vs3 ++ [validator], ts4)
  else pure (vs3, ts3)

/-- The `[validate(node) for validate in validators]` comprehension: every
validator is applied (no short-circuit), the first raise propagating. -/
def runValidators : List Validator → Node → Except Err (List Bool)
  | [], _ => .ok []
  | v :: rest, node =>
    match v node with
    | .error e => .error e
    | .ok b =>
      match runValidators rest node with
      | .error e => .error e
      | .ok bs => .ok (b :: bs)

/-- The node loop of `Parser._eval`: keep the nodes on which all
validators return true (`all([...])`). -/
def evalNodes (validators : List Validator) : List Node → Except Err (List Node)
  | [] => .ok []
  | n :: rest =>
    match runValidators validators n with
    | .error e => .error e
    | .ok bs =>
      match evalNodes validators rest with
      | .error e => .error e
      | .ok tail => .ok (if bs.all id then n :: tail else tail)

/-- `Parser._eval(validators, obj)`: filter the flattened node sequence. -/
def _eval (validators : List Validator) (obj : Json) : Except Err (List Node) :=
  evalNodes validators (object_iter obj [] none none)

/-- `Parser.parents(lhs, rhs)` — a stub: `pass` returns Python `None`. -/
def parents (lhs rhs : List Node) : Option (List Node) := none

/-- `Parser.ancestors(lhs, rhs)` — a stub: `pass` returns Python `None`. -/
def ancestors (lhs rhs : List Node) : Option (List Node) := none

/-- Embedding of `Parser.selector_production(tokens)`: build the segment
validators, evaluate them over the document, then dispatch on a trailing
operator or whitespace token.  The `,` branch extends the left results
with the right ones; the `>` and whitespace branches call the stubbed
`parents`/`ancestors` helpers, so `results.extend(None)` raises
`TypeError`; the `~` branch raises `AttributeError` because the class
defines no `siblings` method.  `fuel` bounds the recursion depth; every
recursive call first pops the operator or whitespace token, so any fuel
above the token-list length is never exhausted. -/
def selector_production (fuel : Nat) (st : PyState) : Except Err (List Node × PyState) :=
  match fuel with
  | 0 => .error .outOfFuel
  | fuel + 1 =>
    match parseSegment st.tokens with
    | .error e => .error e
    | .ok (validators, ts) =>
      match _eval validators st.doc with
      | .error e => .error e
      | .ok results =>
        if pyTruthy (_peek ts "operator") then
          match _match ts "operator" with
          | .error e => .error e
          | .ok (op, ts2) =>
            match selector_production fuel { st with tokens := ts2 } with
            | .error e => .error e
            | .ok (rvals, st3) =>
              if op = .s "," then .ok (results ++ rvals, st3)
              else if op = .s ">" then
                match parents results rvals with
                | some more => .ok (results ++ more, st3)
                | none => .error .typeError
              else if op = .s "~" then .error .attributeError
              else .ok (results, st3)
        else if pyTruthy (_peek ts "empty") then
          match _match ts "empty" with
          | .error e => .error e
          | .ok (_, ts2) =>
            match selector_production fuel { st with tokens := ts2 } with
            | .error e => .error e
            | .ok (rvals, st3) =>
              match ancestors results rvals with
              | some more => .ok (results ++ more, st3)
              | none => .error .typeError
        else .ok (results, { st with tokens := ts })

/-- The single-result unwrap at the end of `Parser.parse`: a one-element
value list is returned as that bare value. -/
def pyWrap (vals : List Json) : PyResult :=
  match vals with
  | [v] => .single v
  | _ => .multiple vals

/-- Embedding of `Parser.parse(tokens)`: the `*` fast path returns the
values of every flattened node (always as a list); otherwise run
`selector_production` and unwrap a singleton result. -/
def parse (st : PyState) : Except Err (PyResult × PyState) :=
  if _peek st.tokens "operator" = some (.s "*") then
    match _match st.tokens "operator" with
    | .error e => .error e
    | .ok (_, ts) =>
      .ok (.multiple ((object_iter st.doc [] none none).map (·.value)),
           { st with tokens := ts })
  else
    match selector_production (st.tokens.length + 1) st with
    | .error e => .error e
    | .ok (results, st2) => .ok (pyWrap (results.map (·.value)), st2)

/-- `select(selector, obj)` together with the final evaluation state. -/
def selectSt (selector : String) (obj : Json) : Except Err (PyResult × PyState) :=
  match lex selector with
  | .error e => .error e
  | .ok tokens => parse { doc := obj, tokens := tokens }

/-- Embedding of the module-level `select(selector, obj)`:
`Parser(obj).parse(lex(selector))`. -/
def select (selector : String) (obj : Json) : Except Err PyResult :=
  (selectSt selector obj).map Prod.fst

/-- The values of every node of the default flattening of `d` — exactly
what the `*` fast path of `parse` returns. -/
def allValues (d : Json) : List Json := (object_iter d [] none none).map (·.value)

/-! ## Helper lemmas -/

theorem object_iter_eq_body (obj : Json) (parents : List String)
    (sibling_idx siblings : Option Nat) :
    object_iter obj parents sibling_idx siblings =
      iterBody obj parents ++ [⟨obj, parents, sibling_idx, siblings⟩] := by
  cases obj <;> rfl

theorem object_iter_length (d : Json) (ps : List String) (si sl : Option Nat) :
    (object_iter d ps si sl).length = totalCount d := by
  refine object_iter.induct
    (fun d ps si sl => (object_iter d ps si sl).length = totalCount d)
    (fun fields ps => (iter_fields fields ps).length = countFields fields)
    (fun elems i len ps => (iter_elems elems i len ps).length = countElems elems)
    ?_ ?_ ?_ ?_ ?_ ?_ ?_ d ps si sl
  · intro ps si sl elems ih
    simp [object_iter, totalCount, ih]
    omega
  · intro ps si sl fields ih
    simp [object_iter, totalCount, ih]
    omega
  · intro ps si sl v hnarr hnobj
    cases v with
    | arr elems => exact absurd rfl (hnarr elems)
    | obj fields => exact absurd rfl (hnobj fields)
    | null => rfl
    | bool b => rfl
    | num n => rfl
    | str s => rfl
  · intro i len ps
    rfl
  · intro i len ps e rest ih1 ih2
    simp [iter_elems, countElems, ih1, ih2]
  · intro ps
    rfl
  · intro ps k v rest ih1 ih2
    simp [iter_fields, countFields, ih1, ih2]


theorem runValidators_nil (n : Node) : runValidators [] n = .ok [] := rfl

theorem evalNodes_nil_validators (ns : List Node) : evalNodes [] ns = .ok ns := by
  induction ns with
  | nil => rfl
  | cons n rest ih => simp [evalNodes, runValidators_nil, ih, List.all_nil]

theorem _eval_nil_validators (obj : Json) :
    _eval [] obj = .ok (object_iter obj [] none none) := by
  simp [_eval, evalNodes_nil_validators]

/-- Every node yielded by `object_iter` carries a value reachable in the
traversed document. -/
theorem mem_object_iter_reach (d : Json) (ps : List String) (si sl : Option Nat) :
    ∀ n ∈ object_iter d ps si sl, Reach d n.value := by
  refine object_iter.induct
    (fun d ps si sl => ∀ n ∈ object_iter d ps si sl, Reach d n.value)
    (fun fields ps => ∀ n ∈ iter_fields fields ps, ∃ k x, (k, x) ∈ fields ∧ Reach x n.value)
    (fun elems i len ps => ∀ n ∈ iter_elems elems i len ps, ∃ x ∈ elems, Reach x n.value)
    ?_ ?_ ?_ ?_ ?_ ?_ ?_ d ps si sl
  · intro ps si sl elems ih n hn
    rw [object_iter] at hn
    rcases List.mem_append.mp hn with h | h
    · obtain ⟨x, hx, hr⟩ := ih n h
      exact Reach.step (Child.arr hx) hr
    · rcases List.mem_singleton.mp h with rfl
      exact Reach.refl _
  · intro ps si sl fields ih n hn
    rw [object_iter] at hn
    rcases List.mem_append.mp hn with h | h
    · obtain ⟨k, x, hkx, hr⟩ := ih n h
      exact Reach.step (Child.obj hkx) hr
    · rcases List.mem_singleton.mp h with rfl
      exact Reach.refl _
  · intro ps si sl v hnarr hnobj n hn
    rw [object_iter_eq_body] at hn
    have hbody : iterBody v ps = [] := by
      cases v with
      | arr elems => exact absurd rfl (hnarr elems)
      | obj fields => exact absurd rfl (hnobj fields)
      | null => rfl
      | bool b => rfl
      | num m => rfl
      | str s => rfl
    rw [hbody, List.nil_append] at hn
    rcases List.mem_singleton.mp hn with rfl
    exact Reach.refl _
  · intro i len ps n hn
    simp [iter_elems] at hn
  · intro i len ps e rest ih1 ih2 n hn
    rw [iter_elems] at hn
    rcases List.mem_append.mp hn with h | h
    · exact ⟨e, List.mem_cons_self e rest, ih1 n h⟩
    · obtain ⟨x, hx, hr⟩ := ih2 n h
      exact ⟨x, List.mem_cons_of_mem e hx, hr⟩
  · intro ps n hn
    simp [iter_fields] at hn
  · intro ps k v rest ih1 ih2 n hn
    rw [iter_fields] at hn
    rcases List.mem_append.mp hn with h | h
    · exact ⟨k, v, List.mem_cons_self (k, v) rest, ih1 n h⟩
    · obtain ⟨k2, x, hkx, hr⟩ := ih2 n h
      exact ⟨k2, x, List.mem_cons_of_mem (k, v) hkx, hr⟩

/-- The document itself appears among the values of its flattening (it is
the final, postorder-last node). -/
theorem self_mem_object_iter_values (d : Json) (ps : List String) (si sl : Option Nat) :
    d ∈ (object_iter d ps si sl).map (·.value) := by
  rw [object_iter_eq_body, List.map_append]
  exact List.mem_append_right _ (List.mem_singleton.mpr rfl)

theorem mem_iter_elems_of_mem {x : Json} {elems : List Json} (hx : x ∈ elems) :
    ∀ (i len : Nat) (ps : List String) (v : Json),
      (∀ si sl, v ∈ (object_iter x ps si sl).map (·.value)) →
      v ∈ (iter_elems elems i len ps).map (·.value) := by
  induction elems with
  | nil => cases hx
  | cons e rest ih =>
    intro i len ps v hv
    rw [iter_elems, List.map_append]
    rcases List.mem_cons.mp hx with rfl | hx2
    · exact List.mem_append_left _ (hv (some i) (some len))
    · exact List.mem_append_right _ (ih hx2 (i + 1) len ps v hv)

theorem mem_iter_fields_of_mem {k : String} {x : Json} {fields : List (String × Json)}
    (hx : (k, x) ∈ fields) :
    ∀ (ps : List String) (v : Json),
      (∀ ps2 si sl, v ∈ (object_iter x ps2 si sl).map (·.value)) →
      v ∈ (iter_fields fields ps).map (·.value) := by
  induction fields with
  | nil => cases hx
  | cons f rest ih =>
    intro ps v hv
    obtain ⟨k2, x2⟩ := f
    rw [iter_fields, List.map_append]
    rcases List.mem_cons.mp hx with heq | hx2
    · injection heq with h1 h2
      subst h1
      subst h2
      exact List.mem_append_left _ (hv (ps ++ [k]) none none)
    · exact List.mem_append_right _ (ih hx2 ps v hv)

/-- Every value reachable in `d` appears among the values of any
flattening of `d`. -/
theorem reach_mem_object_iter_values {d v : Json} (h : Reach d v) :
    ∀ (ps : List String) (si sl : Option Nat),
      v ∈ (object_iter d ps si sl).map (·.value) := by
  induction h with
  | refl d => exact fun ps si sl => self_mem_object_iter_values d ps si sl
  | step hc hr ih =>
    intro ps si sl
    cases hc with
    | arr hx =>
      rw [object_iter, List.map_append]
      exact List.mem_append_left _
        (mem_iter_elems_of_mem hx 1 _ ps _ (fun si2 sl2 => ih ps si2 sl2))
    | obj hkx =>
      rw [object_iter, List.map_append]
      exact List.mem_append_left _
        (mem_iter_fields_of_mem hkx ps _ (fun ps2 si2 sl2 => ih ps2 si2 sl2))

theorem mem_iter_elems_exists {n : Node} :
    ∀ (elems : List Json) (i len : Nat) (ps : List String),
      n ∈ iter_elems elems i len ps →
      ∃ x ∈ elems, ∃ si sl, n ∈ object_iter x ps si sl := by
  intro elems
  induction elems with
  | nil => intro i len ps hn; simp [iter_elems] at hn
  | cons e rest ih =>
    intro i len ps hn
    rw [iter_elems] at hn
    rcases List.mem_append.mp hn with h | h
    · exact ⟨e, List.mem_cons_self e rest, some i, some len, h⟩
    · obtain ⟨x, hx, si, sl, hmem⟩ := ih (i + 1) len ps h
      exact ⟨x, List.mem_cons_of_mem e hx, si, sl, hmem⟩

theorem mem_iter_fields_exists {n : Node} :
    ∀ (fields : List (String × Json)) (ps : List String),
      n ∈ iter_fields fields ps →
      ∃ k x, (k, x) ∈ fields ∧ n ∈ object_iter x (ps ++ [k]) none none := by
  intro fields
  induction fields with
  | nil => intro ps hn; simp [iter_fields] at hn
  | cons f rest ih =>
    intro ps hn
    obtain ⟨k, v⟩ := f
    rw [iter_fields] at hn
    rcases List.mem_append.mp hn with h | h
    · exact ⟨k, v, List.mem_cons_self (k, v) rest, h⟩
    · obtain ⟨k2, x, hkx, hmem⟩ := ih ps h
      exact ⟨k2, x, List.mem_cons_of_mem (k, v) hkx, hmem⟩

/-- Dropping the final (postorder-last) node of a flattening leaves only
nodes whose values are strict descendants of the document. -/
theorem mem_dropLast_properReach (d : Json) (ps : List String) (si sl : Option Nat) :
    ∀ n ∈ (object_iter d ps si sl).dropLast, ProperReach d n.value := by
  intro n hn
  rw [object_iter_eq_body, List.dropLast_concat] at hn
  cases d with
  | arr elems =>
    obtain ⟨x, hx, si2, sl2, hmem⟩ := mem_iter_elems_exists elems 1 elems.length ps hn
    exact ⟨x, Child.arr hx, mem_object_iter_reach x ps si2 sl2 n hmem⟩
  | obj fields =>
    obtain ⟨k, x, hkx, hmem⟩ := mem_iter_fields_exists fields ps hn
    exact ⟨x, Child.obj hkx, mem_object_iter_reach x (ps ++ [k]) none none n hmem⟩
  | null => simp [iterBody] at hn
  | bool b => simp [iterBody] at hn
  | num m => simp [iterBody] at hn
  | str s => simp [iterBody] at hn

/-- The final node of any flattening is the traversed value itself: the
composite is yielded after all of its descendants. -/
theorem object_iter_getLast (d : Json) (ps : List String) (si sl : Option Nat) :
    (object_iter d ps si sl).getLast? = some ⟨d, ps, si, sl⟩ := by
  rw [object_iter_eq_body]
  simp

/-- No step of `selector_production` writes to the document component of
the state (the source never assigns to `self.obj`); only the token list
is consumed. -/
theorem selector_production_doc :
    ∀ (fuel : Nat) (st : PyState) (r : List Node) (st2 : PyState),
      selector_production fuel st = .ok (r, st2) → st2.doc = st.doc := by
  intro fuel
  induction fuel with
  | zero => intro st r st2 h; simp [selector_production] at h
  | succ n ih =>
    intro st r st2 h
    rw [selector_production] at h
    split at h
    · simp at h
    next vs ts hseg =>
      split at h
      · simp at h
      next results hev =>
        split at h
        · split at h
          · simp at h
          next op ts2 hm =>
            split at h
            · simp at h
            next rvals st3 hrec =>
              have hdoc3 : st3.doc = st.doc :=
                ih { doc := st.doc, tokens := ts2 } rvals st3 hrec
              split at h
              · simp only [Except.ok.injEq, Prod.mk.injEq] at h
                rw [← h.2]
                exact hdoc3
              · split at h
                · simp [parents] at h
                · split at h
                  · simp at h
                  · simp only [Except.ok.injEq, Prod.mk.injEq] at h
                    rw [← h.2]
                    exact hdoc3
        · split at h
          · split at h
            · simp at h
            next op ts2 hm =>
              split at h
              · simp at h
              next rvals st3 hrec =>
                simp [ancestors] at h
          · simp only [Except.ok.injEq, Prod.mk.injEq] at h
            rw [← h.2]

/-- `parse` preserves the document component of the state. -/
theorem parse_doc (st : PyState) (res : PyResult) (st2 : PyState)
    (h : parse st = .ok (res, st2)) : st2.doc = st.doc := by
  rw [parse] at h
  split at h
  · split at h
    · simp at h
    next op ts hm =>
      simp only [Except.ok.injEq, Prod.mk.injEq] at h
      rw [← h.2]
  · split at h
    · simp at h
    next results st3 hsp =>
      simp only [Except.ok.injEq, Prod.mk.injEq] at h
      rw [← h.2]
      exact selector_production_doc _ _ _ _ hsp

/-- `selector_production` applied to a lone `word` token: no production
peeks a `word`, so the validator list stays empty, every flattened node
passes, and the token is left unconsumed. -/
theorem selector_production_word (d : Json) (fuel : Nat) :
    selector_production (fuel + 1) { doc := d, tokens := [("word", TValue.s "foo")] } =
      .ok (object_iter d [] none none,
           { doc := d, tokens := [("word", TValue.s "foo")] }) := by
  rw [selector_production]
  have hseg : parseSegment [("word", TValue.s "foo")] =
      .ok ([], [("word", TValue.s "foo")]) := rfl
  simp only [hseg, _eval_nil_validators]
  rfl

/-- `parse` on a lone `word` token returns the (wrapped) values of every
node of the document. -/
theorem parse_no_segment_word (d : Json) :
    parse { doc := d, tokens := [("word", TValue.s "foo")] } =
      .ok (pyWrap ((object_iter d [] none none).map (·.value)),
           { doc := d, tokens := [("word", TValue.s "foo")] }) := by
  rw [parse]
  split
  next hstar => exact Option.noConfusion hstar
  next hstar =>
    split
    next e hsp =>
      rw [show ({ doc := d, tokens := [(("word", TValue.s "foo") : Token)] } :
            PyState).tokens.length + 1 = 1 + 1 from rfl] at hsp
      rw [selector_production_word d 1] at hsp
      exact Except.noConfusion hsp
    next results st2 hsp =>
      rw [show ({ doc := d, tokens := [(("word", TValue.s "foo") : Token)] } :
            PyState).tokens.length + 1 = 1 + 1 from rfl] at hsp
      rw [selector_production_word d 1] at hsp
      injection hsp with h3
      injection h3 with h4 h5
      subst h4
      subst h5
      rfl

/-! ## The claims -/

/-- C1 (code bug in the source): the spec's `>` (parent) combinator is
unimplemented — `Parser.parents` and `Parser.ancestors` are stubs
returning `None`, so `results.extend(None)` raises `TypeError` and
`select("object > string", d)` fails on both spec examples instead of
returning `"x"` resp. the empty result. -/
theorem parent_combinator_raises_typeerror :
    select "object > string" (.obj [("a", .str "x")]) = .error .typeError ∧
    select "object > string" (.obj [("a", .obj [("b", .str "x")])]) = .error .typeError :=
  ⟨rfl, rfl⟩

/-- C2 counterexample: on `"foo:bar"` the scanner stops before `":bar"`
with the token `('word', 'foo')` already produced, and `lex` returns the
tokens instead of raising. -/
theorem lex_leftover_counterexample :
    (scan "foo:bar".toList).2 = ":bar".toList ∧
    lex "foo:bar" = .ok [("word", TValue.s "foo")] := ⟨rfl, rfl⟩

/-- C2 (amended): `lex` raises the leftover-input `LexError` carrying the
unscanned remainder only when the scanner produced *no* token at all; if
any token was produced the remainder is silently discarded. -/
theorem lex_error_only_when_no_tokens (s : String)
    (h1 : (scan s.toList).1 = []) (h2 : (scan s.toList).2 ≠ []) :
    lex s = .error (.lexError (String.mk (scan s.toList).2)) := by
  simp only [lex]
  rw [if_pos (by rw [h1]; rfl)]
  rw [if_pos h2]

/-- Witness for C2 (amended): the selector `":"` scans to no tokens with
remainder `":"`, and `lex` raises the `LexError`. -/
theorem lex_error_only_when_no_tokens_witness :
    lex ":" = .error (.lexError ":") :=
  lex_error_only_when_no_tokens ":" rfl (by decide)

/-- C3 counterexample: `select("foo:bar", {"a": "x"})` does not raise any
error; it returns the values of every node of the document. -/
theorem unknown_pclass_no_error_counterexample :
    select "foo:bar" (.obj [("a", .str "x")]) =
      .ok (.multiple [.str "x", .obj [("a", .str "x")]]) := rfl

/-- C3 (amended): for every document `d`, `select("foo:bar", d)` succeeds:
the scanner silently drops `":bar"`, leaving only the token
`('word', 'foo')`, which matches no production, so the empty validator
list accepts every flattened node. -/
theorem unknown_pclass_silently_ignored (d : Json) :
    select "foo:bar" d = .ok (pyWrap ((object_iter d [] none none).map (·.value))) := by
  have h1 : select "foo:bar" d =
      (parse { doc := d, tokens := [("word", TValue.s "foo")] }).map Prod.fst := rfl
  rw [h1, parse_no_segment_word d]
  rfl

/-- C4 counterexample: `select("*", 5)` matches exactly one node but
returns the one-element list `[5]`, not the bare value `5`. -/
theorem star_singleton_counterexample :
    select "*" (Json.num 5) = .ok (.multiple [Json.num 5]) ∧
    select "*" (Json.num 5) ≠ .ok (.single (Json.num 5)) := by
  refine ⟨rfl, ?_⟩
  intro h
  rw [show select "*" (Json.num 5) = .ok (.multiple [Json.num 5]) from rfl] at h
  exact PyResult.noConfusion (Except.ok.inj h)

/-- C4 (amended): the single-result unwrap applies only on the
non-universal path of `parse` — a one-element result list is returned as
the bare value there — while the `*` fast path always returns the full
value list, even when it is a singleton. -/
theorem single_unwrap_except_star (st : PyState) :
    (∀ rest, st.tokens = ("operator", TValue.s "*") :: rest →
      parse st = .ok (.multiple ((object_iter st.doc [] none none).map (·.value)),
        { st with tokens := rest })) ∧
    (_peek st.tokens "operator" ≠ some (TValue.s "*") →
      ∀ res st2, selector_production (st.tokens.length + 1) st = .ok (res, st2) →
        parse st = .ok (pyWrap (res.map (·.value)), st2)) := by
  constructor
  · intro rest hts
    rw [parse]
    rw [if_pos (show _peek st.tokens "operator" = some (TValue.s "*") from by rw [hts]; rfl)]
    rw [show _match st.tokens "operator" = .ok (TValue.s "*", rest) from by rw [hts]; rfl]
  · intro hne res st2 hsp
    rw [parse, if_neg hne, hsp]

/-- Witness for C4 (amended): the `*` path wraps a singleton while the
plain path unwraps one. -/
theorem single_unwrap_except_star_witness :
    parse { doc := Json.num 5, tokens := [("operator", TValue.s "*")] } =
      .ok (.multiple [Json.num 5], { doc := Json.num 5, tokens := [] }) ∧
    parse { doc := Json.str "x", tokens := [("type", TValue.s "string")] } =
      .ok (.single (Json.str "x"), { doc := Json.str "x", tokens := [] }) := by
  constructor
  · exact (single_unwrap_except_star _).1 [] rfl
  · exact (single_unwrap_except_star _).2 (by decide)
      [⟨Json.str "x", [], none, none⟩] { doc := Json.str "x", tokens := [] } rfl

/-- C5 counterexample: `select("string,string", {"a": "x"})` returns the
node for `"x"` twice — the `,` combinator does not deduplicate. -/
theorem union_duplicates_counterexample :
    select "string,string" (Json.obj [("a", Json.str "x")]) =
      .ok (.multiple [Json.str "x", Json.str "x"]) ∧
    ¬ ([Json.str "x", Json.str "x"] : List Json).Nodup := by
  refine ⟨rfl, ?_⟩
  intro h
  exact (List.nodup_cons.mp h).1 (List.mem_singleton.mpr rfl)

/-- C5 (amended): the `,` branch of `selector_production` returns the
concatenation (`results.extend(rvals)`) of the left-hand and right-hand
result lists: a node matching both sides appears twice. -/
theorem selector_production_comma (d : Json) (fuel : Nat) (ts rest : List Token)
    (vs : List Validator) (lhs rhs : List Node) (st3 : PyState)
    (hseg : parseSegment ts = .ok (vs, ("operator", TValue.s ",") :: rest))
    (hev : _eval vs d = .ok lhs)
    (hrec : selector_production fuel { doc := d, tokens := rest } = .ok (rhs, st3)) :
    selector_production (fuel + 1) { doc := d, tokens := ts } = .ok (lhs ++ rhs, st3) := by
  rw [selector_production]
  simp only [hseg, hev]
  have hpeek : pyTruthy (_peek (("operator", TValue.s ",") :: rest) "operator") = true := rfl
  rw [if_pos hpeek]
  have hm : _match (("operator", TValue.s ",") :: rest) "operator" =
      .ok (TValue.s ",", rest) := rfl
  rw [hm]
  simp only [hrec]
  simp

/-- Witness for C5 (amended): on `"string,string"` over `{"a": "x"}` the
comma branch yields the `"x"` node twice. -/
theorem selector_production_comma_witness :
    selector_production 2
      { doc := Json.obj [("a", Json.str "x")],
        tokens := [("type", TValue.s "string"), ("operator", TValue.s ","),
                   ("type", TValue.s "string")] } =
      .ok ([⟨Json.str "x", ["a"], none, none⟩, ⟨Json.str "x", ["a"], none, none⟩],
           { doc := Json.obj [("a", Json.str "x")], tokens := [] }) :=
  selector_production_comma (Json.obj [("a", Json.str "x")]) 1
    [("type", TValue.s "string"), ("operator", TValue.s ","), ("type", TValue.s "string")]
    [("type", TValue.s "string")]
    [type_production (TValue.s "string")]
    [⟨Json.str "x", ["a"], none, none⟩] [⟨Json.str "x", ["a"], none, none⟩]
    { doc := Json.obj [("a", Json.str "x")], tokens := [] } rfl rfl rfl

/-- C6 (code bug in the source): `select(".foo", {"foo": [1, 2]})` matches
not only the array but also its elements `1` and `2`, because
`object_iter` passes the `parents` chain through to array elements
unchanged, so their last ancestry entry is also `"foo"` — contradicting
the documented grammar (`T.key`: the value of the parent's key property). -/
theorem key_selector_matches_array_elements :
    select ".foo" (.obj [("foo", .arr [.num 1, .num 2])]) =
      .ok (.multiple [.num 1, .num 2, .arr [.num 1, .num 2]]) := rfl

/-- C7 (code bug in the source): `select("object:has(.foo)", ...)` raises
`Exception('syntax error')` instead of filtering, because
`pclass_function_validator` only implements `nth-child` and
`nth-last-child`; every other pseudo-function name, including the
documented `has`, falls into the final raise. -/
theorem has_pseudo_function_raises :
    select "object:has(.foo)" (.obj [("a", .obj [("foo", .num 1)]), ("b", .obj [])]) =
      .error .syntaxError := rfl

/-- C8: `select("*", d)` returns exactly the values of the flattened node
sequence: every value reachable in `d` is among them, `d` itself is among
them, and their number is the total count of JSON values in `d`. -/
theorem universal_selector_returns_all_values (d : Json) :
    select "*" d = .ok (.multiple (allValues d)) ∧
    d ∈ allValues d ∧
    (∀ v, Reach d v → v ∈ allValues d) ∧
    (allValues d).length = totalCount d := by
  refine ⟨rfl, self_mem_object_iter_values d [] none none,
    fun v hv => reach_mem_object_iter_values hv [] none none, ?_⟩
  simp [allValues, object_iter_length]

/-- Witness for C8: the reachable value `"x"` of `{"a": "x"}` is among the
returned values. -/
theorem universal_selector_witness :
    Json.str "x" ∈ allValues (Json.obj [("a", Json.str "x")]) :=
  (universal_selector_returns_all_values (Json.obj [("a", Json.str "x")])).2.2.1
    (Json.str "x")
    (Reach.step (Child.obj (List.mem_singleton.mpr rfl)) (Reach.refl _))

/-- C9: any flattening of a document `d` has exactly `totalCount d` nodes,
its last node is `d` itself (the composite comes after all its
descendants), and every earlier node's value is a strict descendant of
`d`.  As this holds for every recursive invocation (any `parents`/sibling
arguments), every composite in the traversal follows its descendants. -/
theorem flatten_postorder_count (d : Json) (ps : List String) (si sl : Option Nat) :
    (object_iter d ps si sl).length = totalCount d ∧
    (object_iter d ps si sl).getLast? = some ⟨d, ps, si, sl⟩ ∧
    ∀ n ∈ (object_iter d ps si sl).dropLast, ProperReach d n.value :=
  ⟨object_iter_length d ps si sl, object_iter_getLast d ps si sl,
   mem_dropLast_properReach d ps si sl⟩

/-- Witness for C9: in `[1]`, the node for `1` precedes the array node and
is a strict descendant. -/
theorem flatten_postorder_count_witness :
    ProperReach (Json.arr [Json.num 1]) (Json.num 1) :=
  (flatten_postorder_count (Json.arr [Json.num 1]) [] none none).2.2
    ⟨Json.num 1, [], some 1, some 1⟩ (List.Mem.head _)

/-- C10: a `select` evaluation never writes to the document: the final
evaluation state carries the input document unchanged (only the token
list is consumed) — the source contains no assignment into `self.obj`
during lexing, flattening or evaluation. -/
theorem select_leaves_document_unchanged (selector : String) (d : Json)
    (res : PyResult) (st2 : PyState) (h : selectSt selector d = .ok (res, st2)) :
    st2.doc = d := by
  rw [selectSt] at h
  split at h
  · simp at h
  next tokens hlex => exact parse_doc _ _ _ h

/-- Witness for C10: evaluating `"*"` over `5` consumes the token list but
returns the document untouched. -/
theorem select_leaves_document_unchanged_witness :
    PyState.doc { doc := Json.num 5, tokens := [] } = Json.num 5 :=
  select_leaves_document_unchanged "*" (Json.num 5) (.multiple [Json.num 5])
    { doc := Json.num 5, tokens := [] } rfl
